import Mathlib

/-
Verification of the climate-spiral plotting program (src/main.py).

The program has two numeric components:
  * segment_circle: splits the unit circle into equally spaced segments,
    returning for each segment its (x, y) position and angle in radians;
  * the spiral coordinate mapper inside main: maps each anomaly value to a
    2-D point whose direction is a month segment chosen through the fixed
    month_idx lookup table and whose radius is (value + 1.5) * (r / 3.6).

Real-number arithmetic in the source (numpy floats) is modelled over the
reals.  The ZeroDivisionError raised by the expression 2 * pi / 0 when
segment_circle is called with count 0 is modelled by an Option result:
none stands for the raised exception.
-/

namespace ClimateSpiral

/-- One row of the array built by segment_circle: the (x, y) coordinates
and the angle of segment j when the circle is split into num_segments
parts.  Mirrors lines 21 to 26 of src/main.py: segment_rad is
2 * pi / num_segments and the angle of segment j is segment_rad * j. -/
noncomputable def segment_triple (num_segments : ℤ) (j : ℕ) : ℝ × ℝ × ℝ :=
  let segment_rad : ℝ := 2 * Real.pi / (num_segments : ℝ)
  (Real.cos (segment_rad * j), Real.sin (segment_rad * j), segment_rad * j)

/-- segment_circle from src/main.py.  np.arange(n) is empty for n <= 0,
modelled by Int.toNat.  For num_segments = 0 the Python expression
2 * np.pi / num_segments raises ZeroDivisionError, modelled as none. -/
noncomputable def segment_circle (num_segments : ℤ) : Option (List (ℝ × ℝ × ℝ)) :=
  if num_segments = 0 then none
  else some ((List.range num_segments.toNat).map (segment_triple num_segments))

/-- The month label list from src/main.py line 62. -/
def months : List String :=
  ["Mar", "Feb", "Jan", "Dec", "Nov", "Oct", "Sep", "Aug", "Jul", "Jun", "May", "Apr"]

/-- The month index lookup table from src/main.py line 64. -/
def month_idx : List ℕ := [2, 1, 0, 11, 10, 9, 8, 7, 6, 5, 4, 3]

/-- The base radius r = 7.0 from src/main.py line 60. -/
def r : ℝ := 7.0

/-- The radial scale factor r / 3.6 from src/main.py line 72. -/
noncomputable def r_factor : ℝ := r / 3.6

/-- month_points = segment_circle(len(months)) from src/main.py line 66.
The call provably succeeds (12 is not 0), so the Option is unwrapped with
an irrelevant default. -/
noncomputable def month_points : List (ℝ × ℝ × ℝ) :=
  (segment_circle (months.length : ℤ)).getD []

/-- One iteration of the wrangling loop, src/main.py lines 78 to 83:
sample i with anomaly value v is mapped to
(r_pos * x_unit_r, r_pos * y_unit_r) where r_pos = (v + 1.5) * r_factor
and the unit direction is month_points[month_idx[i % 12]].  List lookups
use getD with a default that is provably never reached. -/
noncomputable def spiral_point (i : ℕ) (v : ℝ) : ℝ × ℝ :=
  let x_orig : ℝ := v + 1.5
  let r_pos : ℝ := x_orig * r_factor
  let dir := month_points.getD (month_idx.getD (i % 12) 0) (0, 0, 0)
  (r_pos * dir.1, r_pos * dir.2.1)

/-- The full wrangling loop of src/main.py lines 76 to 83: one 2-D point
per anomaly value, in order. -/
noncomputable def spiral_points (anomalies : List ℝ) : List (ℝ × ℝ) :=
  (List.range anomalies.length).map (fun i => spiral_point i (anomalies.getD i 0))

/-- The connecting line segments, src/main.py lines 86 to 87:
segments[k] = (pts[k], pts[k+1]), i.e. pts[:-1] paired with pts[1:]. -/
noncomputable def spiral_segments (anomalies : List ℝ) : List ((ℝ × ℝ) × (ℝ × ℝ)) :=
  (spiral_points anomalies).dropLast.zip (spiral_points anomalies).tail

/-- The calendar month names in calendar order, used to state what the
layout of months and month_idx encodes. -/
def calendar_months : List String :=
  ["Jan", "Feb", "Mar", "Apr", "May", "Jun", "Jul", "Aug", "Sep", "Oct", "Nov", "Dec"]

/- ## Helper lemmas -/

theorem getD_map_range {α : Type} (f : ℕ → α) (n j : ℕ) (d : α) (h : j < n) :
    ((List.range n).map f).getD j d = f j := by
  rw [List.getD_eq_getElem?_getD, List.getElem?_map, List.getElem?_range h]
  rfl

theorem segment_circle_of_pos (n : ℤ) (hn : 0 < n) :
    segment_circle n = some ((List.range n.toNat).map (segment_triple n)) := by
  unfold segment_circle
  rw [if_neg (by omega)]

theorem segment_circle_of_neg (n : ℤ) (hn : n < 0) :
    segment_circle n = some [] := by
  unfold segment_circle
  rw [if_neg (by omega)]
  have h0 : n.toNat = 0 := Int.toNat_of_nonpos (le_of_lt hn)
  rw [h0]
  rfl

theorem month_points_eq :
    month_points = (List.range 12).map (segment_triple 12) := by
  unfold month_points
  rw [show (months.length : ℤ) = 12 from by rfl]
  rw [segment_circle_of_pos 12 (by norm_num)]
  rfl

theorem month_points_getD (k : ℕ) (hk : k < 12) :
    month_points.getD k (0, 0, 0) = segment_triple 12 k := by
  rw [month_points_eq]
  exact getD_map_range _ 12 k _ hk

theorem month_idx_getD_lt (k : ℕ) (hk : k < 12) : month_idx.getD k 0 < 12 := by
  interval_cases k <;> decide

theorem spiral_points_getD (anomalies : List ℝ) (i : ℕ) (h : i < anomalies.length) :
    (spiral_points anomalies).getD i (0, 0) = spiral_point i (anomalies.getD i 0) := by
  unfold spiral_points
  exact getD_map_range _ _ i _ h

theorem spiral_points_length (anomalies : List ℝ) :
    (spiral_points anomalies).length = anomalies.length := by
  unfold spiral_points
  rw [List.length_map, List.length_range]

/- ## Claim theorems -/

/-- C1: for every positive integer count, segment_circle count succeeds and
returns exactly count triples, the triple at index j being
(cos (j * 2 * pi / count), sin (j * 2 * pi / count), j * 2 * pi / count). -/
theorem segment_circle_returns_count_triples (count : ℤ) (hc : 0 < count) :
    ∃ l, segment_circle count = some l ∧ l.length = count.toNat ∧
      ∀ j : ℕ, j < count.toNat →
        l.getD j (0, 0, 0) =
          (Real.cos ((j : ℝ) * (2 * Real.pi) / (count : ℝ)),
           Real.sin ((j : ℝ) * (2 * Real.pi) / (count : ℝ)),
           (j : ℝ) * (2 * Real.pi) / (count : ℝ)) := by
  refine ⟨_, segment_circle_of_pos count hc, ?_, ?_⟩
  · rw [List.length_map, List.length_range]
  · intro j hj
    rw [getD_map_range _ _ j _ hj]
    show (_, _, _) = (_, _, _)
    have harg : 2 * Real.pi / (count : ℝ) * (j : ℝ) = (j : ℝ) * (2 * Real.pi) / (count : ℝ) := by
      ring
    rw [harg]

/-- C1 witness: the theorem applied to the concrete count 12 used by the
program. -/
theorem segment_circle_returns_count_triples_witness :
    ∃ l, segment_circle 12 = some l ∧ l.length = (12 : ℤ).toNat ∧
      ∀ j : ℕ, j < (12 : ℤ).toNat →
        l.getD j (0, 0, 0) =
          (Real.cos ((j : ℝ) * (2 * Real.pi) / ((12 : ℤ) : ℝ)),
           Real.sin ((j : ℝ) * (2 * Real.pi) / ((12 : ℤ) : ℝ)),
           (j : ℝ) * (2 * Real.pi) / ((12 : ℤ) : ℝ)) :=
  segment_circle_returns_count_triples 12 (by norm_num)

/-- C4 counterexample: at the concrete input count = -1, which satisfies
count <= 0, segment_circle silently returns a (empty) result instead of
failing, refuting the claim that every count <= 0 fails. -/
theorem segment_circle_neg_one_silent :
    (-1 : ℤ) ≤ 0 ∧ segment_circle (-1) = some [] ∧ segment_circle (-1) ≠ none := by
  refine ⟨by norm_num, segment_circle_of_neg (-1) (by norm_num), ?_⟩
  rw [segment_circle_of_neg (-1) (by norm_num)]
  exact Option.some_ne_none _

/-- C4 amended: only count = 0 fails (the division 2 * pi / count raises
ZeroDivisionError there); every negative count is silently accepted and
returns an empty result. -/
theorem segment_circle_nonpositive_behaviour :
    segment_circle 0 = none ∧
    ∀ count : ℤ, count < 0 → segment_circle count = some [] := by
  constructor
  · unfold segment_circle
    rw [if_pos rfl]
  · exact fun count hc => segment_circle_of_neg count hc

/-- C9: for every negative integer count, segment_circle raises no error and
returns an empty result (np.arange of a negative count is empty). -/
theorem segment_circle_negative_empty (count : ℤ) (h : count < 0) :
    segment_circle count = some [] :=
  segment_circle_of_neg count h

/-- C9 witness: the theorem applied at the concrete count -3. -/
theorem segment_circle_negative_empty_witness :
    segment_circle (-3) = some [] :=
  segment_circle_negative_empty (-3) (by norm_num)

/-- C6: for every positive count, the angles returned by segment_circle
start at 0, are strictly increasing, the last angle is strictly below
2 * pi, and every (x, y) pair lies on the unit circle within 1e-9. -/
theorem segment_circle_angle_geometry (count : ℤ) (hc : 0 < count) :
    ∃ l, segment_circle count = some l ∧
      (l.getD 0 (0, 0, 0)).2.2 = 0 ∧
      (∀ j : ℕ, j + 1 < count.toNat →
        (l.getD j (0, 0, 0)).2.2 < (l.getD (j + 1) (0, 0, 0)).2.2) ∧
      (l.getD (count.toNat - 1) (0, 0, 0)).2.2 < 2 * Real.pi ∧
      (∀ j : ℕ, j < count.toNat →
        |(l.getD j (0, 0, 0)).1 ^ 2 + (l.getD j (0, 0, 0)).2.1 ^ 2 - 1| ≤ 1e-9) := by
  have hn : 0 < count.toNat := by omega
  have hcR : (0 : ℝ) < (count : ℝ) := by exact_mod_cast hc
  have hrad : 0 < 2 * Real.pi / (count : ℝ) := by positivity
  refine ⟨_, segment_circle_of_pos count hc, ?_, ?_, ?_, ?_⟩
  · rw [getD_map_range _ _ 0 _ hn]
    simp [segment_triple]
  · intro j hj
    rw [getD_map_range _ _ j _ (by omega), getD_map_range _ _ (j + 1) _ hj]
    simp only [segment_triple]
    have hjc : (j : ℝ) < ((j + 1 : ℕ) : ℝ) := by exact_mod_cast Nat.lt_succ_self j
    exact mul_lt_mul_of_pos_left hjc hrad
  · rw [getD_map_range _ _ _ _ (by omega : count.toNat - 1 < count.toNat)]
    simp only [segment_triple]
    have h1 : ((count.toNat : ℕ) : ℝ) = (count : ℝ) := by
      exact_mod_cast Int.toNat_of_nonneg hc.le
    have hcast : ((count.toNat - 1 : ℕ) : ℝ) = (count : ℝ) - 1 := by
      rw [Nat.cast_sub hn, h1]
      norm_num
    rw [hcast]
    calc 2 * Real.pi / (count : ℝ) * ((count : ℝ) - 1)
        < 2 * Real.pi / (count : ℝ) * (count : ℝ) :=
          mul_lt_mul_of_pos_left (by linarith) hrad
      _ = 2 * Real.pi := div_mul_cancel₀ _ (ne_of_gt hcR)
  · intro j hj
    rw [getD_map_range _ _ j _ hj]
    simp only [segment_triple]
    rw [Real.cos_sq_add_sin_sq]
    norm_num

/-- C6 witness: the theorem applied at the concrete count 12. -/
theorem segment_circle_angle_geometry_witness :
    ∃ l, segment_circle 12 = some l ∧
      (l.getD 0 (0, 0, 0)).2.2 = 0 ∧
      (∀ j : ℕ, j + 1 < (12 : ℤ).toNat →
        (l.getD j (0, 0, 0)).2.2 < (l.getD (j + 1) (0, 0, 0)).2.2) ∧
      (l.getD ((12 : ℤ).toNat - 1) (0, 0, 0)).2.2 < 2 * Real.pi ∧
      (∀ j : ℕ, j < (12 : ℤ).toNat →
        |(l.getD j (0, 0, 0)).1 ^ 2 + (l.getD j (0, 0, 0)).2.1 ^ 2 - 1| ≤ 1e-9) :=
  segment_circle_angle_geometry 12 (by norm_num)

theorem month_points_length : month_points.length = 12 := by
  rw [month_points_eq, List.length_map, List.length_range]

theorem spiral_point_eq (i : ℕ) (v : ℝ) :
    spiral_point i v =
      ((v + 1.5) * (r / 3.6) * Real.cos (2 * Real.pi / 12 * (month_idx.getD (i % 12) 0 : ℕ)),
       (v + 1.5) * (r / 3.6) * Real.sin (2 * Real.pi / 12 * (month_idx.getD (i % 12) 0 : ℕ))) := by
  simp only [spiral_point]
  rw [month_points_getD _ (month_idx_getD_lt _ (Nat.mod_lt i (by norm_num)))]
  simp only [segment_triple, r_factor]
  have h12 : ((12 : ℤ) : ℝ) = (12 : ℝ) := by norm_num
  rw [h12]

/-- C2: the spiral mapper produces one point per input value, and point i
equals ((v + 1.5) * (r / 3.6) * ux, (v + 1.5) * (r / 3.6) * uy) where
(ux, uy) is the unit direction of the segment selected for position i,
i.e. the segment at permuted index month_idx[i mod 12] on the 12-part
circle. -/
theorem spiral_mapper_point_formula (anomalies : List ℝ) (i : ℕ)
    (h : i < anomalies.length) :
    (spiral_points anomalies).length = anomalies.length ∧
    (spiral_points anomalies).getD i (0, 0) =
      ((anomalies.getD i 0 + 1.5) * (r / 3.6) *
          Real.cos (2 * Real.pi / 12 * (month_idx.getD (i % 12) 0 : ℕ)),
       (anomalies.getD i 0 + 1.5) * (r / 3.6) *
          Real.sin (2 * Real.pi / 12 * (month_idx.getD (i % 12) 0 : ℕ))) := by
  refine ⟨spiral_points_length anomalies, ?_⟩
  rw [spiral_points_getD anomalies i h, spiral_point_eq]

/-- C2 witness: the theorem applied to the concrete one-element input
[0.5] at position 0. -/
theorem spiral_mapper_point_formula_witness :
    (spiral_points [(0.5 : ℝ)]).length = [(0.5 : ℝ)].length ∧
    (spiral_points [(0.5 : ℝ)]).getD 0 (0, 0) =
      (([(0.5 : ℝ)].getD 0 0 + 1.5) * (r / 3.6) *
          Real.cos (2 * Real.pi / 12 * (month_idx.getD (0 % 12) 0 : ℕ)),
       ([(0.5 : ℝ)].getD 0 0 + 1.5) * (r / 3.6) *
          Real.sin (2 * Real.pi / 12 * (month_idx.getD (0 % 12) 0 : ℕ))) :=
  spiral_mapper_point_formula [(0.5 : ℝ)] 0 (by simp)

/-- C3: the direction of sample i is selected through the month_idx lookup
at residue i mod 12, not by the residue itself: the mapped point uses the
direction stored at month_points[month_idx[i mod 12]]; at position i = 0
the permuted index is 2, and the direction of segment 2 differs from the
direction of segment 0. -/
theorem month_index_remap (i : ℕ) (v : ℝ) :
    spiral_point i v =
      ((v + 1.5) * r_factor * (month_points.getD (month_idx.getD (i % 12) 0) (0, 0, 0)).1,
       (v + 1.5) * r_factor * (month_points.getD (month_idx.getD (i % 12) 0) (0, 0, 0)).2.1) ∧
    month_idx.getD (0 % 12) 0 = 2 ∧
    ((month_points.getD 2 (0, 0, 0)).1, (month_points.getD 2 (0, 0, 0)).2.1) ≠
      ((month_points.getD 0 (0, 0, 0)).1, (month_points.getD 0 (0, 0, 0)).2.1) := by
  refine ⟨rfl, rfl, ?_⟩
  intro hEq
  rw [month_points_getD 2 (by norm_num), month_points_getD 0 (by norm_num)] at hEq
  simp only [segment_triple] at hEq
  have h2 : 2 * Real.pi / ((12 : ℤ) : ℝ) * ((2 : ℕ) : ℝ) = Real.pi / 3 := by
    push_cast
    ring
  have h0 : 2 * Real.pi / ((12 : ℤ) : ℝ) * ((0 : ℕ) : ℝ) = 0 := by
    push_cast
    ring
  rw [h2, h0, Real.cos_pi_div_three, Real.cos_zero] at hEq
  have hfst := congrArg Prod.fst hEq
  norm_num at hfst

/-- C5: the spiral mapper maps the empty input to no points and no line
segments, and a one-element input to exactly one point and no connecting
line segment. -/
theorem spiral_empty_and_single (v : ℝ) :
    spiral_points [] = [] ∧ spiral_segments [] = [] ∧
    (spiral_points [v]).length = 1 ∧ spiral_segments [v] = [] := by
  have hone : spiral_points [v] = [spiral_point 0 v] := by
    simp [spiral_points, List.range_succ]
  refine ⟨?_, ?_, ?_, ?_⟩
  · simp [spiral_points]
  · simp [spiral_segments, spiral_points]
  · rw [hone]
    rfl
  · unfold spiral_segments
    rw [hone]
    rfl

/-- C7: on a constant input of length 24, the two 12-month cycles trace
identical loops: the point at position i + 12 equals the point at
position i for every i below 12. -/
theorem constant_input_two_identical_loops (c : ℝ) (i : ℕ) (h : i < 12) :
    (spiral_points (List.replicate 24 c)).getD (i + 12) (0, 0) =
    (spiral_points (List.replicate 24 c)).getD i (0, 0) := by
  have hlen : (List.replicate 24 c).length = 24 := List.length_replicate _ _
  have h1 : i + 12 < (List.replicate 24 c).length := by omega
  have h2 : i < (List.replicate 24 c).length := by omega
  rw [spiral_points_getD _ _ h1, spiral_points_getD _ _ h2]
  have hg1 : (List.replicate 24 c).getD (i + 12) 0 = c := by
    rw [List.getD_eq_getElem?_getD, List.getElem?_replicate, if_pos (by omega)]
    rfl
  have hg2 : (List.replicate 24 c).getD i 0 = c := by
    rw [List.getD_eq_getElem?_getD, List.getElem?_replicate, if_pos (by omega)]
    rfl
  rw [hg1, hg2]
  simp only [spiral_point, Nat.add_mod_right]

/-- C7 witness: the theorem applied at the concrete constant 2 and
position 3. -/
theorem constant_input_two_identical_loops_witness :
    (spiral_points (List.replicate 24 (2 : ℝ))).getD (3 + 12) (0, 0) =
    (spiral_points (List.replicate 24 (2 : ℝ))).getD 3 (0, 0) :=
  constant_input_two_identical_loops 2 3 (by norm_num)

/-- C8: month_idx is a permutation of 0..11, every lookup at a residue
i mod 12 yields a valid index into month_points, and the table is
consistent with the month label layout: reading months at the entries of
month_idx, in order, yields the calendar month names Jan..Dec, so sample i
is plotted at the segment labeled with its calendar month. -/
theorem month_idx_perm_and_labels :
    List.Perm month_idx (List.range 12) ∧
    (∀ k : ℕ, month_idx.getD (k % 12) 0 < month_points.length) ∧
    month_idx.map (fun k => months.getD k "") = calendar_months := by
  refine ⟨by decide, ?_, by decide⟩
  intro k
  rw [month_points_length]
  exact month_idx_getD_lt _ (Nat.mod_lt k (by norm_num))

/-- C10: no clamping of the radial factor: when the anomaly value is below
-1.5 the radial factor (v + 1.5) * r_factor is negative and the mapped
point is the negation of a point at positive radius along the direction of
the month segment of the sample. -/
theorem negative_radius_opposite_ray (i : ℕ) (v : ℝ) (h : v < -1.5) :
    (v + 1.5) * r_factor < 0 ∧
    ∃ t : ℝ, 0 < t ∧
      spiral_point i v =
        (-(t * (month_points.getD (month_idx.getD (i % 12) 0) (0, 0, 0)).1),
         -(t * (month_points.getD (month_idx.getD (i % 12) 0) (0, 0, 0)).2.1)) := by
  have hrf : 0 < r_factor := by
    simp only [r_factor, r]
    norm_num
  have hneg : (v + 1.5) * r_factor < 0 := mul_neg_of_neg_of_pos (by linarith) hrf
  refine ⟨hneg, -((v + 1.5) * r_factor), by linarith, ?_⟩
  simp only [spiral_point, Prod.mk.injEq]
  constructor <;> ring

/-- C10 witness: the theorem applied at position 0 with the concrete
anomaly value -2. -/
theorem negative_radius_opposite_ray_witness :
    ((-2 : ℝ) + 1.5) * r_factor < 0 ∧
    ∃ t : ℝ, 0 < t ∧
      spiral_point 0 (-2) =
        (-(t * (month_points.getD (month_idx.getD (0 % 12) 0) (0, 0, 0)).1),
         -(t * (month_points.getD (month_idx.getD (0 % 12) 0) (0, 0, 0)).2.1)) :=
  negative_radius_opposite_ray 0 (-2) (by norm_num)

end ClimateSpiral
